import Mathlib

/-!
# Shallow embedding of the in-memory FUSE filesystem core (`src/fs.js`)

This file embeds the inode-based variant of `fs.js` (the variant defining
`Inode`, `Entry`, `Directory`, `File`, `FileDescriptor`, `FileSystem`) and
proves or refutes the frozen claims about it.

Modelling conventions:

* JavaScript numbers holding the inode counter can be `undefined` (before the
  `FileSystem` constructor initialises the field) or `NaN` (after `++` on
  `undefined`); the type `JVal` captures exactly the values this field and the
  stray `nlink` property on `Entry` objects can take.
* Node `Buffer`s are length-plus-contents function pairs; `Buffer#slice`
  produces views, and the only writes through views (`copy` into a slice of a
  stored block) are compiled to `copyAt`, which updates the underlying block
  at the view's offset.  Node's negative-index clamping semantics of
  `slice(start, end)` are reproduced in `bsliceTo`.
* The `while` loops of `File#read` / `File#write` do not structurally
  terminate (and on some inputs genuinely run forever), so they are embedded
  with an explicit fuel parameter; `none` means the loop is still running when
  the fuel runs out.  A result `some r` for one fuel value is the result for
  every larger fuel value.
* Timestamps (`Date` objects, `atime`/`mtime`/`ctime`) are real-time values
  and are not modelled; no claim mentions them.
* The platform constant table is fixed to the linux table of
  `filesystem-constants`: `S_IFDIR = 0o40000`, `S_IFREG = 0o100000`,
  `O_ACCMODE = 3`, `O_RDONLY = 0`, `O_WRONLY = 1`, `O_RDWR = 2`,
  `O_CREAT = 0o100`, `O_EXCL = 0o200`, `O_APPEND = 0o2000`.  Flags are taken
  in numeric form (string flags go through the external `constants.parse`,
  which is outside the core).
* The JS heap is modelled by a store: inodes live in `FS.store` (a list
  indexed by allocation order; `Entry.inodeId` is the index), entries are
  values inside their directory's inode.  `Array.prototype.indexOf` in
  `Directory#remove` compares by object identity; every call site passes an
  entry that was obtained as the *first* entry with a given name, so removal
  of the first value-equal element coincides with identity-based removal.
* Errors unwind without rolling back heap mutations, so every mutating
  operation returns `Except Err α × FS`: the state component is the heap at
  the point the operation finished or threw.
-/

deriving instance DecidableEq for Except

namespace MemFs

/-- The values the JS expressions around the inode counter can take:
`undefined`, `NaN`, or an ordinary number. -/
inductive JVal where
  | undef : JVal
  | nan : JVal
  | num : Int → JVal
deriving DecidableEq

/-- JS `++x` (and the value stored by `x++`): `ToNumber(undefined) = NaN`,
`NaN + 1 = NaN`. -/
def JVal.preInc : JVal → JVal
  | .undef => .nan
  | .nan => .nan
  | .num n => .num (n + 1)

/-- A Node `Buffer`: a byte length and the byte at each index below `len`
(indices at or above `len` are irrelevant). -/
structure Buffer where
  len : Nat
  data : Nat → Nat

/-- `Buffer.alloc(n)`: `n` zero bytes. -/
def Buffer.zeros (n : Nat) : Buffer := ⟨n, fun _ => 0⟩

/-- A buffer with explicit byte contents. -/
def Buffer.ofList (l : List Nat) : Buffer := ⟨l.length, fun i => l.getD i 0⟩

/-- `buf.slice(s)` for `0 ≤ s`: the view from byte `s` on (Node clamps
`s > len` to an empty view, matching truncated subtraction). -/
def bsliceFrom (b : Buffer) (s : Nat) : Buffer :=
  ⟨b.len - s, fun j => b.data (s + j)⟩

/-- `buf.slice(0, e)` where `e` may be negative: Node interprets a negative
`e` as `len + e`, clamps below at `0` and above at `len`. -/
def bsliceTo (b : Buffer) (e : Int) : Buffer :=
  ⟨if e < 0 then ((b.len : Int) + e).toNat else min e.toNat b.len, b.data⟩

/-- `src.copy(dst.slice(a))`: writes `min (src.len) (dst.len - a)` bytes of
`src` into `dst` starting at byte `a`. -/
def copyAt (dst : Buffer) (a : Nat) (src : Buffer) : Buffer :=
  ⟨dst.len, fun j =>
    if a ≤ j ∧ j < a + min src.len (dst.len - a) then src.data (j - a)
    else dst.data j⟩

def BLOCK_SIZE : Nat := 1024 * 1024

/-- `blocks[i]` on a JS array: `none` for holes and out-of-range reads. -/
def getBlock (bs : List (Option Buffer)) (i : Nat) : Option Buffer :=
  bs.getD i none

/-- `blocks[i] = b` on a JS array: extends the array with holes if needed. -/
def setBlock (bs : List (Option Buffer)) (i : Nat) (b : Buffer) :
    List (Option Buffer) :=
  if i < bs.length then bs.set i (some b)
  else bs ++ List.replicate (i - bs.length) none ++ [some b]

/-- The tail trim of the read loop:
`if (i * BLOCK_SIZE + blk.length > size) blk = blk.slice(0, size - i * BLOCK_SIZE)`
— at this point the loop has already executed `i++`, hence `i + 1` here. -/
def trimBlk (sz i : Nat) (blk0 : Buffer) : Buffer :=
  if sz < (i + 1) * BLOCK_SIZE + blk0.len then
    bsliceTo blk0 ((sz : Int) - ((i : Int) + 1) * (BLOCK_SIZE : Int))
  else blk0

/-- `if (o) { blk = blk.slice(o); o = 0 }`. -/
def bsliceO (o : Nat) (b : Buffer) : Buffer :=
  if o ≠ 0 then bsliceFrom b o else b

/-- One iteration's block view in `File#read`: the loop body reads
`this.inode.blocks[i++] || Buffer.alloc(BLOCK_SIZE)`, applies the tail trim,
and drops the first `o` bytes when `o ≠ 0`. -/
def readBlk (sz : Nat) (blocks : List (Option Buffer)) (i o : Nat) : Buffer :=
  bsliceO o (trimBlk sz i ((getBlock blocks i).getD (Buffer.zeros BLOCK_SIZE)))

/-- The loop of `File#read`, with fuel: while
`start < buffer.length && offset < size`, take the iteration's block view
(`readBlk`), copy it into `buffer.slice(start)` and advance `offset` and
`start` by the view's length (`o` is zeroed after the first pass). -/
def readLoop (sz : Nat) (blocks : List (Option Buffer)) :
    Nat → Nat → Nat → Nat → Nat → Buffer → Option (Buffer × Nat)
  | 0, _, _, offset, start, buffer =>
      if start < buffer.len ∧ offset < sz then none
      else some (buffer, min buffer.len start)
  | fuel + 1, i, o, offset, start, buffer =>
      if start < buffer.len ∧ offset < sz then
        readLoop sz blocks fuel (i + 1) 0
          (offset + (readBlk sz blocks i o).len)
          (start + (readBlk sz blocks i o).len)
          (copyAt buffer start (readBlk sz blocks i o))
      else some (buffer, min buffer.len start)

/-- The loop of `File#write`, with fuel.  `if (!this.blocks[i])` allocates a
zero block, `blk = this.blocks[i++]`, the first pass skips `o` bytes
(`blk = blk.slice(o)` is a view, so the copy lands at offset `o` of the
stored block), `buffer.slice(start).copy(blk)`, then `start` and `offset`
advance by the view's length. -/
def writeLoop (sz : Nat) :
    Nat → Nat → Nat → Nat → Nat → Buffer → List (Option Buffer) →
      Option (List (Option Buffer) × Nat)
  | 0, _, _, offset, start, buffer, blocks =>
      if start < buffer.len ∧ offset < sz then none
      else some (blocks, min buffer.len start)
  | fuel + 1, i, o, offset, start, buffer, blocks =>
      if start < buffer.len ∧ offset < sz then
        let blocks1 :=
          if (getBlock blocks i).isNone then
            setBlock blocks i (Buffer.zeros BLOCK_SIZE)
          else blocks
        let blk0 := (getBlock blocks1 i).getD (Buffer.zeros BLOCK_SIZE)
        let blkLen := blk0.len - o
        let blocks2 := setBlock blocks1 i (copyAt blk0 o (bsliceFrom buffer start))
        writeLoop sz fuel (i + 1) 0 (offset + blkLen) (start + blkLen) buffer
          blocks2
      else some (blocks, min buffer.len start)

/-- A directory entry: a `(name, inode)` binding.  `inodeId` indexes
`FS.store`.  `nlinkProp` is the stray own property created by `fe.nlink++`
in `FileSystem#link` (no code ever reads it).  `fsRef` records whether the
JS `Entry.fs` field is the `FileSystem` (true) or `null` (false, for entries
created by `link`, which passes the undefined `this.fs` of `FileSystem`). -/
structure Entry where
  name : String
  inodeId : Nat
  nlinkProp : JVal
  fsRef : Bool
deriving DecidableEq

/-- An inode: metadata plus either a child list (directories) or a block
vector and logical size (files).  Timestamps are not modelled. -/
structure Inode where
  mode : Nat
  uid : Nat
  gid : Nat
  ino : JVal
  nlink : Int
  entries : List Entry
  blocks : List (Option Buffer)
  size : Nat

instance : Inhabited Inode :=
  ⟨{ mode := 0, uid := 0, gid := 0, ino := .num 0, nlink := 1, entries := [],
     blocks := [], size := 0 }⟩

/-- linux `S_IFDIR`. -/
def S_IFDIR : Nat := 16384
/-- linux `S_IFREG`. -/
def S_IFREG : Nat := 32768
/-- `0 | 0o555 | 0o333 | S_IFDIR`, the mode of every `Directory`. -/
def dirMode : Nat := 511 + S_IFDIR
/-- `0 | 0o444 | 0o222 | S_IFREG`, the mode of every `File` (the caller's
`mode` argument is accepted but ignored by the constructors). -/
def fileMode : Nat := 438 + S_IFREG

/-- `File#read`: computes the initial block index and intra-block offset and
runs the loop; returns the filled buffer and `Math.min(buffer.length, start)`.
`none` means the loop had not exited after `fuel` iterations. -/
def Inode.readFuel (fuel : Nat) (f : Inode) (offset : Nat) (buffer : Buffer) :
    Option (Buffer × Nat) :=
  readLoop f.size f.blocks fuel (offset / BLOCK_SIZE) (offset % BLOCK_SIZE)
    offset 0 buffer

/-- `File#write`: grows `size` to `offset + buffer.length` if needed, then
runs the loop.  The loop advances `start` by at least one byte per iteration
whenever every stored block has length `BLOCK_SIZE` (true in every reachable
state), so `buffer.len + 1` units of fuel suffice there. -/
def Inode.write (f : Inode) (offset : Nat) (buffer : Buffer) :
    Option (Inode × Nat) :=
  let sz := if f.size < offset + buffer.len then offset + buffer.len else f.size
  (writeLoop sz (buffer.len + 1) (offset / BLOCK_SIZE) (offset % BLOCK_SIZE)
      offset 0 buffer f.blocks).map
    fun p => ({ f with size := sz, blocks := p.1 }, p.2)

/-- `File#truncate` / `Entry#truncate`. -/
def Inode.truncate (f : Inode) (size : Nat) : Inode :=
  { f with size := size, blocks := f.blocks.take ((size + BLOCK_SIZE - 1) / BLOCK_SIZE) }

/-- The error taxonomy of `fs.js`, plus the untagged `ReferenceError` thrown
by evaluating the undeclared identifier `mode` in `FileSystem#chown` and
`FileSystem#utimes`. -/
inductive Err where
  | ENOENT | ENOTDIR | EINVAL | EPERM | EBADF | ENOTEMPTY | EEXIST | EISDIR
  | JSReferenceError
deriving DecidableEq

/-- The `errno` property carried by each thrown error; a `ReferenceError`
carries none. -/
def Err.errno : Err → Option Int
  | .ENOENT => some (-2)
  | .ENOTDIR => some (-20)
  | .EINVAL => some (-23)
  | .EPERM => some (-1)
  | .EBADF => some (-9)
  | .ENOTEMPTY => some (-66)
  | .EEXIST => some (-17)
  | .EISDIR => some (-21)
  | .JSReferenceError => none

/-- The record returned by `Entry#stat` (timestamps omitted). -/
structure Stat where
  mode : Nat
  size : Nat
  blocks : Nat
  dev : Nat
  rdev : Nat
  nlink : Int
  ino : JVal
  uid : Nat
  gid : Nat
deriving DecidableEq

/-- A `FileDescriptor`.  `fileInodeId` stands for the `file` field (all uses
of `this.file` go through `this.file.inode`). -/
structure FDesc where
  fileInodeId : Option Nat
  id : Nat
  readable : Bool
  writable : Bool
  appending : Bool
  exclusive : Bool
  creating : Bool
  position : Nat
deriving DecidableEq

/-- The `FileDescriptor` constructor on a numeric flag (linux table). -/
def FDesc.ofFlag (flag : Nat) (id : Nat) : FDesc :=
  let acc := flag &&& 3
  { fileInodeId := none
    id := id
    readable := acc == 0 || acc == 2
    writable := acc == 1 || acc == 2
    appending := flag &&& 1024 != 0
    exclusive := flag &&& 128 != 0
    creating := flag &&& 64 != 0
    position := 0 }

/-- The `FileSystem` state: the inode store (indexed by creation order), the
root entry, the FD table and the `inodes` counter. -/
structure FS where
  store : List Inode
  root : Entry
  fds : List (Option FDesc)
  inodesCtr : JVal

/-- The `FileSystem` constructor.  Field order matters: `this.root` is
created *before* `this.inodes = 0`, so the root's `Inode` constructor
evaluates `++fs.inodes` on `undefined`, leaving `NaN` as the root's `ino`
(the counter itself is then overwritten with `0`). -/
def FS.new : FS :=
  { store := [{ mode := dirMode, uid := 0, gid := 0, ino := JVal.preInc .undef,
                nlink := 1, entries := [], blocks := [], size := 512 }]
    root := { name := "", inodeId := 0, nlinkProp := .undef, fsRef := true }
    fds := []
    inodesCtr := .num 0 }

/-- Dereference an inode id.  Reachable states never hold dangling ids; the
default inode (empty, size 0) is only a totalisation device. -/
def inodeOf (fs : FS) (id : Nat) : Inode := fs.store.getD id default

/-- Replace the inode at `id` (no-op when `id` is out of range, which cannot
happen for ids taken from live entries). -/
def updInode (fs : FS) (id : Nat) (f : Inode → Inode) : FS :=
  { fs with store := fs.store.set id (f (fs.store.getD id default)) }

/-- `Entry#isDirectory`. -/
def entryIsDir (fs : FS) (e : Entry) : Prop :=
  (inodeOf fs e.inodeId).mode &&& S_IFDIR ≠ 0

instance (fs : FS) (e : Entry) : Decidable (entryIsDir fs e) := by
  unfold entryIsDir; infer_instance

/-- `Entry#isFile`. -/
def entryIsFile (fs : FS) (e : Entry) : Prop :=
  (inodeOf fs e.inodeId).mode &&& S_IFREG ≠ 0

instance (fs : FS) (e : Entry) : Decidable (entryIsFile fs e) := by
  unfold entryIsFile; infer_instance

/-- Replace the first occurrence of `a` by `b` in an entry list (the JS code
mutates a single entry object in place; the object is always the first
value-equal element, see the module comment). -/
def replaceFirst : List Entry → Entry → Entry → List Entry
  | [], _, _ => []
  | x :: xs, a, b => if x = a then b :: xs else x :: replaceFirst xs a b

/-- `Directory#get`: first entry with the given name, or `null`. -/
def dirGet (fs : FS) (pid : Nat) (nm : String) : Option Entry :=
  (inodeOf fs pid).entries.find? fun e => e.name = nm

/-- `Directory#remove(entry)`: splice the entry out (located by identity;
every call site passes the first entry carrying its name, so removing the
first value-equal element is the identity-faithful transcription) and
decrement the *target entry's* inode `nlink` — both only when the entry is
present (`indexOf > -1`). -/
def dirRemove (fs : FS) (pid : Nat) (e : Entry) : FS :=
  if e ∈ (inodeOf fs pid).entries then
    updInode (updInode fs pid fun i => { i with entries := i.entries.erase e })
      e.inodeId fun i => { i with nlink := i.nlink - 1 }
  else fs

/-- `Directory#push`. -/
def dirPush (fs : FS) (pid : Nat) (e : Entry) : FS :=
  updInode fs pid fun i => { i with entries := i.entries ++ [e] }

/-- `Entry#reset`: clear blocks, entries and size of the entry's inode. -/
def resetInode (fs : FS) (id : Nat) : FS :=
  updInode fs id fun i => { i with blocks := [], size := 0, entries := [] }

/-- Allocate a fresh file inode and entry under `parent` (`Directory#create`,
missing-name branch: `new File({ fs: this.fs, name, mode })`; the `mode`
argument is ignored by the constructors).  The `Inode` constructor runs
`++fs.inodes` when the parent's `fs` field is set. -/
def newFileUnder (fs : FS) (parent : Entry) (nm : String) : FS × Entry :=
  let inoV := if parent.fsRef then fs.inodesCtr.preInc else JVal.num 0
  let ctr1 := if parent.fsRef then fs.inodesCtr.preInc else fs.inodesCtr
  let newId := fs.store.length
  let child : Inode :=
    { mode := fileMode, uid := 0, gid := 0, ino := inoV, nlink := 1,
      entries := [], blocks := [], size := 0 }
  let newE : Entry :=
    { name := nm, inodeId := newId, nlinkProp := .undef, fsRef := parent.fsRef }
  let fs1 := dirPush fs parent.inodeId newE
  ({ fs1 with store := fs1.store ++ [child], inodesCtr := ctr1 }, newE)

/-- `Directory#create`: reset in place when the name exists, else make a new
file entry. -/
def dirCreate (fs : FS) (parent : Entry) (nm : String) : FS × Entry :=
  match dirGet fs parent.inodeId nm with
  | some e => (resetInode fs e.inodeId, e)
  | none => newFileUnder fs parent nm

/-- Allocate a fresh directory inode and entry under `parent`
(`Directory#mkdir` success path: `new Directory({ fs: this.fs, name })`). -/
def newDirUnder (fs : FS) (parent : Entry) (nm : String) : FS :=
  let inoV := if parent.fsRef then fs.inodesCtr.preInc else JVal.num 0
  let ctr1 := if parent.fsRef then fs.inodesCtr.preInc else fs.inodesCtr
  let newId := fs.store.length
  let child : Inode :=
    { mode := dirMode, uid := 0, gid := 0, ino := inoV, nlink := 1,
      entries := [], blocks := [], size := 512 }
  let newE : Entry :=
    { name := nm, inodeId := newId, nlinkProp := .undef, fsRef := parent.fsRef }
  let fs1 := dirPush fs parent.inodeId newE
  { fs1 with store := fs1.store ++ [child], inodesCtr := ctr1 }

/-- `path.split('/')` on the character list: every `'/'` ends a component,
empty components included (structural recursion so that concrete paths
evaluate in the kernel). -/
def splitSlash : List Char → List Char → List String
  | [], acc => [String.mk acc.reverse]
  | c :: cs, acc =>
      if c = '/' then String.mk acc.reverse :: splitSlash cs []
      else splitSlash cs (c :: acc)

/-- `path.split('/').filter(notEmpty)`. -/
def splitPath (p : String) : List String :=
  (splitSlash p.data []).filter fun s => s ≠ ""

/-- `FileSystem#lookup` over pre-split components. -/
def FS.lookupParts (fs : FS) : List String → Entry → Except Err Entry
  | [], cur => .ok cur
  | p :: ps, cur =>
      if entryIsDir fs cur then
        match dirGet fs cur.inodeId p with
        | some nxt => fs.lookupParts ps nxt
        | none => .error .ENOENT
      else .error .ENOTDIR

/-- `FileSystem#lookup`. -/
def FS.lookup (fs : FS) (path : String) : Except Err Entry :=
  fs.lookupParts (splitPath path) fs.root

/-- `FileSystem#_parentDir`: pop the last component (EINVAL when there is
none), look up the prefix, require a directory. -/
def FS.parentDir (fs : FS) (path : String) : Except Err (Entry × String) :=
  let parts := splitPath path
  match parts.getLast? with
  | none => .error .EINVAL
  | some p =>
      match fs.lookupParts parts.dropLast fs.root with
      | .error e => .error e
      | .ok dir =>
          if entryIsDir fs dir then .ok (dir, p) else .error .ENOTDIR

/-- `Entry#stat` (via `FileSystem#stat`'s lookup). -/
def entryStat (fs : FS) (e : Entry) : Stat :=
  let i := inodeOf fs e.inodeId
  { mode := i.mode, size := i.size, blocks := (i.size + 511) / 512, dev := 0,
    rdev := 0, nlink := i.nlink, ino := i.ino, uid := i.uid, gid := i.gid }

/-- `FileSystem#stat`. -/
def FS.stat (fs : FS) (path : String) : Except Err Stat :=
  (fs.lookup path).map (entryStat fs)

/-- `FileSystem#mkdir` (the `mode` argument is forwarded but ignored by
`Directory#mkdir`). -/
def FS.mkdir (fs : FS) (path : String) : Except Err Unit × FS :=
  match fs.parentDir path with
  | .error e => (.error e, fs)
  | .ok (parent, nm) =>
      if entryIsDir fs parent then
        match dirGet fs parent.inodeId nm with
        | some _ => (.error .EEXIST, fs)
        | none => (.ok (), newDirUnder fs parent nm)
      else (.error .ENOTDIR, fs)

/-- `FileSystem#unlink`. -/
def FS.unlink (fs : FS) (path : String) : Except Err Unit × FS :=
  match fs.parentDir path with
  | .error e => (.error e, fs)
  | .ok (parent, nm) =>
      if entryIsDir fs parent then
        match dirGet fs parent.inodeId nm with
        | none => (.error .ENOENT, fs)
        | some e =>
            if entryIsDir fs e then (.error .EPERM, fs)
            else (.ok (), dirRemove fs parent.inodeId e)
      else (.error .ENOTDIR, fs)

/-- `FileSystem#rmdir`. -/
def FS.rmdir (fs : FS) (path : String) : Except Err Unit × FS :=
  match fs.parentDir path with
  | .error e => (.error e, fs)
  | .ok (parent, nm) =>
      if entryIsDir fs parent then
        match dirGet fs parent.inodeId nm with
        | none => (.error .ENOENT, fs)
        | some e =>
            if ¬ entryIsDir fs e then (.error .ENOTDIR, fs)
            else if (inodeOf fs e.inodeId).entries ≠ [] then
              (.error .ENOTEMPTY, fs)
            else (.ok (), dirRemove fs parent.inodeId e)
      else (.error .ENOTDIR, fs)

/-- `FileSystem#link`.  Note the slip: `fe.nlink++` creates a stray `nlink`
own property on the *entry* object (value `NaN`); the shared inode's `nlink`
field is untouched.  The new entry is pushed with `fs: this.fs`, which on a
`FileSystem` is `undefined`, hence `fsRef := false`. -/
def FS.link (fs : FS) (src dst : String) : Except Err Unit × FS :=
  match fs.parentDir src with
  | .error e => (.error e, fs)
  | .ok (fp, fn) =>
  match fs.parentDir dst with
  | .error e => (.error e, fs)
  | .ok (tp, tn) =>
  match dirGet fs fp.inodeId fn with
  | none => (.error .ENOENT, fs)
  | some fe =>
      if entryIsDir fs fe then (.error .EISDIR, fs)
      else
        match dirGet fs tp.inodeId tn with
        | some _ => (.error .EEXIST, fs)
        | none =>
            let fs1 := updInode fs fp.inodeId fun i =>
              { i with entries := replaceFirst i.entries fe { fe with nlinkProp := fe.nlinkProp.preInc } }
            let newE : Entry :=
              { name := tn, inodeId := fe.inodeId, nlinkProp := .undef,
                fsRef := false }
            (.ok (), dirPush fs1 tp.inodeId newE)

/-- The mutation tail of `FileSystem#rename`.  The source sets
`fe.name = t.name` *before* `f.parent.remove(fe)`; since `remove` locates the
entry by identity, detaching `fe` (under its old field values) and pushing
the renamed entry is the same heap effect. -/
def renameCommit (fs : FS) (fpid tpid : Nat) (fe : Entry) (tn : String) : FS :=
  let fs1 := dirRemove fs fpid fe
  dirPush fs1 tpid { fe with name := tn }

/-- `FileSystem#rename`. -/
def FS.rename (fs : FS) (src dst : String) : Except Err Unit × FS :=
  match fs.parentDir src with
  | .error e => (.error e, fs)
  | .ok (fp, fn) =>
  match fs.parentDir dst with
  | .error e => (.error e, fs)
  | .ok (tp, tn) =>
  match dirGet fs fp.inodeId fn with
  | none => (.error .ENOENT, fs)
  | some fe =>
      match dirGet fs tp.inodeId tn with
      | some te =>
          if entryIsDir fs te ∧ ¬ entryIsDir fs fe then (.error .EISDIR, fs)
          else if entryIsDir fs fe ∧ ¬ entryIsDir fs te then
            (.error .ENOTDIR, fs)
          else if entryIsDir fs fe ∧ entryIsDir fs te ∧
              (inodeOf fs te.inodeId).entries ≠ [] then
            (.error .ENOTEMPTY, fs)
          else
            let fs1 := dirRemove fs tp.inodeId te
            (.ok (), renameCommit fs1 fp.inodeId tp.inodeId fe tn)
      | none => (.ok (), renameCommit fs fp.inodeId tp.inodeId fe tn)

/-- `this.fds[fd - 20]` read as the operations do: out-of-range and negative
indices give `undefined` (here `none`). -/
def slotOf (fds : List (Option FDesc)) (fd : Nat) : Option FDesc :=
  if fd < 20 then none else fds.getD (fd - 20) none

/-- One step of the trailing-null trim: a head in front of an already
trimmed tail survives unless the tail is empty and the head itself is null. -/
def trimCons (x : Option FDesc) : List (Option FDesc) → List (Option FDesc)
  | [] =>
      match x with
      | none => []
      | some d => [some d]
  | y :: ys => x :: y :: ys

/-- The trailing-null trim of `FileSystem#close`:
`while (this.fds.length && !this.fds[this.fds.length - 1]) this.fds.pop()`
removes the maximal all-null suffix. -/
def trimTrailing : List (Option FDesc) → List (Option FDesc)
  | [] => []
  | x :: xs => trimCons x (trimTrailing xs)

/-- The success tail of `FileSystem#open`: set the descriptor position
(`file.inode.size` when appending, else the initial 0), bind the file,
append the descriptor to the FD table and return its id. -/
def openFinish (d : FDesc) (fs1 : FS) (iid : Nat) : Except Err Nat × FS :=
  (.ok d.id,
   { fs1 with
       fds := fs1.fds ++
         [some { d with
                   fileInodeId := some iid
                   position := if d.appending then (inodeOf fs1 iid).size
                     else 0 }] })

/-- `FileSystem#open` (named `openFile` because `open` is a Lean keyword).
The descriptor is built once at entry with id `fds.length + 20` (here the
pure term `FDesc.ofFlag flag (fs.fds.length + 20)` is repeated instead of
let-bound); the checks follow the source order; a writable non-appending
open of an existing file resets it; then `openFinish` appends the
descriptor and returns its id. -/
def FS.openFile (fs : FS) (path : String) (flag : Nat) :
    Except Err Nat × FS :=
  match fs.parentDir path with
  | .error e => (.error e, fs)
  | .ok (parent, nm) =>
      match dirGet fs parent.inodeId nm with
      | some file =>
          if ¬ entryIsFile fs file then (.error .EPERM, fs)
          else if (FDesc.ofFlag flag (fs.fds.length + 20)).exclusive then
            (.error .EEXIST, fs)
          else
            openFinish (FDesc.ofFlag flag (fs.fds.length + 20))
              (if (FDesc.ofFlag flag (fs.fds.length + 20)).writable &&
                  !(FDesc.ofFlag flag (fs.fds.length + 20)).appending then
                resetInode fs file.inodeId
              else fs)
              file.inodeId
      | none =>
          if (FDesc.ofFlag flag (fs.fds.length + 20)).readable &&
              !(FDesc.ofFlag flag (fs.fds.length + 20)).writable then
            (.error .ENOENT, fs)
          else if !(FDesc.ofFlag flag (fs.fds.length + 20)).creating then
            (.error .ENOENT, fs)
          else
            openFinish (FDesc.ofFlag flag (fs.fds.length + 20))
              (dirCreate fs parent nm).1 (dirCreate fs parent nm).2.inodeId

/-- `FileSystem#close`. -/
def FS.close (fs : FS) (fd : Nat) : Except Err Unit × FS :=
  match slotOf fs.fds fd with
  | none => (.error .EBADF, fs)
  | some _ =>
      (.ok (), { fs with fds := trimTrailing (fs.fds.set (fd - 20) none) })

/-- `FileSystem#chown`.  The source line is
`entry.chown(mode, uid, gid)`: after a successful lookup, evaluating the
undeclared identifier `mode` throws a `ReferenceError` before
`Entry#chown` runs, so ownership is never written. -/
def FS.chown (fs : FS) (path : String) (_uid _gid : Nat) :
    Except Err Unit × FS :=
  match fs.lookup path with
  | .error e => (.error e, fs)
  | .ok _ => (.error .JSReferenceError, fs)

/-- `FileSystem#utimes` has the same slip (`entry.utimes(mode, atime, ctime)`
with `mode` undeclared). -/
def FS.utimes (fs : FS) (path : String) : Except Err Unit × FS :=
  match fs.lookup path with
  | .error e => (.error e, fs)
  | .ok _ => (.error .JSReferenceError, fs)

/-- The namespace- and descriptor-mutating operations of the core, as invoked
by the adapter. -/
inductive Op where
  | mkdir (path : String)
  | openFile (path : String) (flag : Nat)
  | close (fd : Nat)
  | link (src dst : String)
  | rename (src dst : String)
  | unlink (path : String)
  | rmdir (path : String)
  | chown (path : String) (uid gid : Nat)
  | utimes (path : String)

/-- The state after running one operation (errors leave whatever state the
operation had built at throw time, which each transcription returns). -/
def Op.apply (op : Op) (fs : FS) : FS :=
  match op with
  | .mkdir p => (fs.mkdir p).2
  | .openFile p fl => (fs.openFile p fl).2
  | .close fd => (fs.close fd).2
  | .link s d => (fs.link s d).2
  | .rename s d => (fs.rename s d).2
  | .unlink p => (fs.unlink p).2
  | .rmdir p => (fs.rmdir p).2
  | .chown p u g => (fs.chown p u g).2
  | .utimes p => (fs.utimes p).2

/-- States reachable from a fresh `FileSystem` by any operation sequence. -/
inductive Reachable : FS → Prop where
  | init : Reachable FS.new
  | step {fs : FS} (op : Op) : Reachable fs → Reachable (op.apply fs)

/-- The name-uniqueness invariant: within every inode's entry list, names are
pairwise distinct. -/
def NamesUnique (fs : FS) : Prop :=
  ∀ i ∈ fs.store, ((i.entries.map Entry.name)).Nodup

instance (fs : FS) : Decidable (NamesUnique fs) := by
  unfold NamesUnique; infer_instance

/-- The name list of an inode's children. -/
def namesOf (i : Inode) : List String := i.entries.map Entry.name

/-- `nm` is absent from directory inode `pid`. -/
def noName (fs : FS) (pid : Nat) (nm : String) : Prop :=
  nm ∉ namesOf (inodeOf fs pid)

/-! ## Concrete scenario states used by the claims -/

/-- A freshly created regular file (`new File(...)` with a working `fs`
reference; the inode number value is irrelevant to the file claims). -/
def fileEmpty : Inode :=
  { mode := fileMode, uid := 0, gid := 0, ino := .num 1, nlink := 1,
    entries := [], blocks := [], size := 0 }

/-- The file after `write(1_048_576, "x")` on an empty file (the spec's
sparse zero-fill scenario); `"x"` is byte 120. -/
def sparseFile : Inode :=
  ((Inode.write fileEmpty 1048576 (Buffer.ofList [120])).map Prod.fst).getD
    fileEmpty

/-- The file after writing exactly one full block of zeros to an empty file:
its size is exactly `BLOCK_SIZE`. -/
def fullBlockFile : Inode :=
  ((Inode.write fileEmpty 0 (Buffer.zeros 1048576)).map Prod.fst).getD
    fileEmpty

/-- `BLOCK_SIZE + 2` bytes of value 122 (`'z'`). -/
def zFill : Buffer := ⟨1048578, fun _ => 122⟩

/-- A two-block file holding `zFill` (written from an empty file). -/
def zFile : Inode :=
  ((Inode.write fileEmpty 0 zFill).map Prod.fst).getD fileEmpty

/-- The byte string `"ab"`. -/
def abBuf : Buffer := Buffer.ofList [97, 98]

/-- `zFile` after `write(1, "ab")`. -/
def c4File : Inode :=
  ((Inode.write zFile 1 abBuf).map Prod.fst).getD fileEmpty

/-- A filesystem holding one regular file `/a` (created by
`open("/a", O_WRONLY | O_CREAT)`). -/
def fsA : FS := (FS.openFile FS.new "/a" 65).2

/-- `fsA` after `link("/a", "/b")`. -/
def fsAB : FS := (FS.link fsA "/a" "/b").2

/-- The descriptor `open("/a", O_WRONLY | O_CREAT)` leaves in slot 0 of
`fsA`. -/
def descA : FDesc :=
  { fileInodeId := some 1, id := 20, readable := false, writable := true, appending := false, exclusive := false, creating := true, position := 0 }

/-! ## Claim theorems -/

/-- **C1.** The link-count invariant fails on the code: after creating `/a`
and a successful `link("/a", "/b")`, two entries share inode 1 but its
`nlink` is still 1 (both `stat("/a")` and `stat("/b")` report 1, not 2),
because `fe.nlink++` writes a stray property on the entry object instead of
incrementing `fe.inode.nlink`; the removal half does decrement, so a
subsequent `unlink("/b")` drives the inode's `nlink` to 0 while an entry
still references it. -/
theorem link_does_not_increment_nlink :
    (FS.link fsA "/a" "/b").1 = .ok () ∧
    ((inodeOf fsAB 0).entries.filter fun e => e.inodeId = 1).length = 2 ∧
    (FS.stat fsAB "/a").map Stat.nlink = .ok 1 ∧
    (FS.stat fsAB "/b").map Stat.nlink = .ok 1 ∧
    (FS.unlink fsAB "/b").1 = .ok () ∧
    (inodeOf (FS.unlink fsAB "/b").2 1).nlink = 0 := by
  decide

/-- **C6.** Inode numbers: the `FileSystem` constructor builds the root
before initialising `this.inodes`, so the root inode's `ino` is `NaN` — not
a numeric value, hence not part of any strictly increasing sequence; the
non-root inodes do get the distinct increasing numbers 1, 2, …. -/
theorem root_ino_is_nan :
    (FS.stat FS.new "/").map Stat.ino = .ok .nan ∧
    (FS.stat (FS.mkdir FS.new "/a").2 "/a").map Stat.ino = .ok (.num 1) ∧
    (FS.stat (FS.mkdir (FS.mkdir FS.new "/a").2 "/b").2 "/b").map Stat.ino =
      .ok (.num 2) ∧
    ∀ n : Int, JVal.nan ≠ JVal.num n := by
  refine ⟨by decide, by decide, by decide, ?_⟩
  intro n h
  cases h

/-- **C5.** `chown` never succeeds: after any successful lookup it throws the
untagged `ReferenceError` (no `errno`), because the call site passes the
undeclared identifier `mode`; ownership is never overwritten and the state is
untouched.  `utimes` fails the same way. -/
theorem chown_raises_untagged_reference_error (fs : FS) (path : String)
    (e : Entry) (u g : Nat) (h : fs.lookup path = .ok e) :
    fs.chown path u g = (.error .JSReferenceError, fs) ∧
    Err.errno .JSReferenceError = none ∧
    fs.utimes path = (.error .JSReferenceError, fs) := by
  unfold FS.chown FS.utimes
  rw [h]
  exact ⟨rfl, rfl, rfl⟩

/-- Witness for `chown_raises_untagged_reference_error` at the root path of a
fresh filesystem. -/
theorem chown_raises_untagged_reference_error_witness :
    FS.new.lookup "/" = .ok FS.new.root ∧
    FS.new.chown "/" 1 2 = (.error .JSReferenceError, FS.new) :=
  ⟨by decide,
   (chown_raises_untagged_reference_error FS.new "/" FS.new.root 1 2
      (by decide)).1⟩

/-! Helper lemmas about the store. -/

theorem getD_set_self {α : Type} (l : List α) (i : Nat) (v d : α)
    (h : i < l.length) : (l.set i v).getD i d = v := by
  simp [List.getD_eq_getElem?_getD, List.getElem?_set_self h]

theorem getD_set_ne {α : Type} (l : List α) (i j : Nat) (v d : α)
    (h : i ≠ j) : (l.set i v).getD j d = l.getD j d := by
  simp [List.getD_eq_getElem?_getD, List.getElem?_set_ne h]

theorem getD_oob {α : Type} (l : List α) (i : Nat) (d : α)
    (h : l.length ≤ i) : l.getD i d = d := by
  simp [List.getD_eq_getElem?_getD, List.getElem?_eq_none h]

theorem updInode_oob (fs : FS) (id : Nat) (f : Inode → Inode)
    (h : fs.store.length ≤ id) : updInode fs id f = fs := by
  unfold updInode
  rw [List.set_eq_of_length_le h]

theorem inodeOf_updInode_self (fs : FS) (id : Nat) (f : Inode → Inode)
    (h : id < fs.store.length) :
    inodeOf (updInode fs id f) id = f (inodeOf fs id) := by
  unfold inodeOf updInode
  exact getD_set_self _ _ _ _ h

theorem inodeOf_updInode_ne (fs : FS) (id : Nat) (f : Inode → Inode)
    (p : Nat) (h : p ≠ id) :
    inodeOf (updInode fs id f) p = inodeOf fs p := by
  unfold inodeOf updInode
  exact getD_set_ne _ _ _ _ _ fun hh => h hh.symm

theorem inodeOf_oob (fs : FS) (id : Nat) (h : fs.store.length ≤ id) :
    inodeOf fs id = default := by
  unfold inodeOf
  exact getD_oob _ _ _ h

theorem resetInode_self_size (fs : FS) (id : Nat) :
    (inodeOf (resetInode fs id) id).size = 0 ∧
    (inodeOf (resetInode fs id) id).blocks = [] := by
  by_cases h : id < fs.store.length
  · rw [resetInode, inodeOf_updInode_self _ _ _ h]
    exact ⟨rfl, rfl⟩
  · rw [resetInode, updInode_oob _ _ _ (le_of_not_lt h),
      inodeOf_oob _ _ (le_of_not_lt h)]
    exact ⟨rfl, rfl⟩

theorem resetInode_fds (fs : FS) (id : Nat) :
    (resetInode fs id).fds = fs.fds := rfl

theorem dirCreate_fds (fs : FS) (p : Entry) (nm : String) :
    (dirCreate fs p nm).1.fds = fs.fds := by
  unfold dirCreate
  cases dirGet fs p.inodeId nm <;> rfl

/-- **C10.** `open` is atomic on failure: whenever it raises an error, the
returned state is exactly the pre-state (no reset, no create, no descriptor
consumed) — every check precedes the first mutation. -/
theorem open_error_leaves_state_unchanged (fs : FS) (path : String)
    (flag : Nat) (e : Err) (h : (fs.openFile path flag).1 = .error e) :
    (fs.openFile path flag).2 = fs := by
  unfold FS.openFile at h ⊢
  cases hp : fs.parentDir path with
  | error e2 => simp [hp]
  | ok pr =>
    obtain ⟨parent, nm⟩ := pr
    simp only [hp] at h ⊢
    cases hg : dirGet fs parent.inodeId nm with
    | some file =>
      simp only [hg] at h ⊢
      by_cases h1 : entryIsFile fs file
      · by_cases h2 : (FDesc.ofFlag flag (fs.fds.length + 20)).exclusive = true
        · simp [h1, h2]
        · simp [h1, h2, openFinish] at h
      · simp [h1]
    | none =>
      simp only [hg] at h ⊢
      cases h3 : (FDesc.ofFlag flag (fs.fds.length + 20)).readable &&
          !(FDesc.ofFlag flag (fs.fds.length + 20)).writable with
      | true => simp [h3]
      | false =>
        cases h4 : (FDesc.ofFlag flag (fs.fds.length + 20)).creating with
        | false => simp [h3, h4]
        | true => simp [h3, h4, openFinish] at h

/-- Witness for `open_error_leaves_state_unchanged`: opening the root path
fails with EINVAL and leaves a fresh filesystem unchanged. -/
theorem open_error_leaves_state_unchanged_witness :
    (FS.new.openFile "/" 0).1 = .error .EINVAL ∧
    (FS.new.openFile "/" 0).2 = FS.new :=
  ⟨by decide, open_error_leaves_state_unchanged FS.new "/" 0 .EINVAL (by decide)⟩

/-- **C7.** `open` on an existing regular file: a writable non-appending
flag resets the file in place (blocks cleared, size 0) before the descriptor
is returned; an appending flag leaves the file untouched and sets the
descriptor position to the current size; a non-appending flag sets
position 0.  Here `d` is the descriptor built at entry
(`new FileDescriptor(flag, this.fds.length + 20)`). -/
theorem open_resets_and_sets_position (fs : FS) (path : String) (flag : Nat)
    (parent : Entry) (nm : String) (file : Entry) (fd : Nat) (d : FDesc)
    (hd : d = FDesc.ofFlag flag (fs.fds.length + 20))
    (hp : fs.parentDir path = .ok (parent, nm))
    (hg : dirGet fs parent.inodeId nm = some file)
    (hf : entryIsFile fs file)
    (ho : (fs.openFile path flag).1 = .ok fd) :
    (d.writable = true → d.appending = false →
        (inodeOf (fs.openFile path flag).2 file.inodeId).size = 0 ∧
        (inodeOf (fs.openFile path flag).2 file.inodeId).blocks = []) ∧
    (d.appending = true →
        (fs.openFile path flag).2.store = fs.store ∧
        (fs.openFile path flag).2.fds = fs.fds ++
          [some { d with
                    fileInodeId := some file.inodeId
                    position := (inodeOf fs file.inodeId).size }]) ∧
    (d.appending = false →
        (fs.openFile path flag).2.fds = fs.fds ++
          [some { d with
                    fileInodeId := some file.inodeId
                    position := 0 }]) := by
  subst hd
  have hx : ¬ (FDesc.ofFlag flag (fs.fds.length + 20)).exclusive = true := by
    intro hx
    unfold FS.openFile at ho
    simp [hp, hg, hf, hx] at ho
  refine ⟨?_, ?_, ?_⟩
  · intro hw ha
    have hstep : (fs.openFile path flag).2.store =
        (resetInode fs file.inodeId).store := by
      unfold FS.openFile
      simp [hp, hg, hf, hx, hw, ha, openFinish]
    have hsz := resetInode_self_size fs file.inodeId
    unfold inodeOf at hsz ⊢
    rw [hstep]
    exact hsz
  · intro ha
    have hw : ¬ ((FDesc.ofFlag flag (fs.fds.length + 20)).writable = true ∧
        (FDesc.ofFlag flag (fs.fds.length + 20)).appending = false) := by
      intro hc
      rw [ha] at hc
      cases hc.2
    constructor
    · unfold FS.openFile
      simp [hp, hg, hf, hx, hw, ha, openFinish]
    · unfold FS.openFile
      simp [hp, hg, hf, hx, hw, ha, openFinish]
  · intro ha
    by_cases hw : (FDesc.ofFlag flag (fs.fds.length + 20)).writable = true
    · unfold FS.openFile
      simp [hp, hg, hf, hx, hw, ha, resetInode_fds, openFinish]
    · unfold FS.openFile
      simp [hp, hg, hf, hx, hw, ha, openFinish]

/-- Witness for `open_resets_and_sets_position`: re-opening `/a` of `fsA`
with `O_WRONLY` resets it and yields descriptor position 0. -/
theorem open_resets_and_sets_position_witness :
    (fsA.parentDir "/a" = .ok (fsA.root, "a")) ∧
    dirGet fsA fsA.root.inodeId "a" =
      some { name := "a", inodeId := 1, nlinkProp := .undef, fsRef := true } ∧
    ((inodeOf (fsA.openFile "/a" 1).2 1).size = 0 ∧
      (inodeOf (fsA.openFile "/a" 1).2 1).blocks = []) := by
  have h := open_resets_and_sets_position fsA "/a" 1 fsA.root "a"
    { name := "a", inodeId := 1, nlinkProp := .undef, fsRef := true } 21
    (FDesc.ofFlag 1 (fsA.fds.length + 20)) rfl
    (by decide) (by decide) (by decide) (by decide)
  exact ⟨by decide, by decide, h.1 (by decide) (by decide)⟩

/-! Helper lemmas for the read-loop nontermination proofs. -/

theorem copyAt_len (dst : Buffer) (a : Nat) (src : Buffer) :
    (copyAt dst a src).len = dst.len := rfl

theorem bsliceO_zero (b : Buffer) : bsliceO 0 b = b := rfl

theorem getBlock_oob (bs : List (Option Buffer)) (i : Nat)
    (h : bs.length ≤ i) : getBlock bs i = none :=
  getD_oob _ _ _ h

theorem bsliceTo_len_zero (b : Buffer) (e : Int) (he : e ≤ 0)
    (h : (b.len : Int) + e ≤ 0 ∨ e = 0) : (bsliceTo b e).len = 0 := by
  unfold bsliceTo
  rcases h with h | rfl
  · by_cases hlt : e < 0
    · simp only [if_pos hlt]
      exact Int.toNat_of_nonpos h
    · have he0 : e = 0 := le_antisymm he (not_lt.mp hlt)
      subst he0
      simp
  · simp

/-- The post-incremented tail trim clamps a full-size block to nothing
whenever `size` either lies at or below the block's own start
(`sz ≤ i * BLOCK_SIZE`, giving a non-positive wrapped length) or exactly at
its end (`sz = (i+1) * BLOCK_SIZE`, giving `slice(0, 0)`). -/
theorem trimBlk_len_zero (sz i : Nat) (blk : Buffer)
    (hb : blk.len = BLOCK_SIZE)
    (h : sz ≤ i * BLOCK_SIZE ∨ sz = (i + 1) * BLOCK_SIZE) :
    (trimBlk sz i blk).len = 0 := by
  have hle : sz ≤ (i + 1) * BLOCK_SIZE := by
    unfold BLOCK_SIZE at h ⊢
    omega
  unfold trimBlk
  split
  next hC =>
    apply bsliceTo_len_zero
    · unfold BLOCK_SIZE at hle ⊢
      push_cast
      omega
    · rw [hb]
      rcases h with h | h
      · left
        unfold BLOCK_SIZE at h ⊢
        push_cast
        omega
      · right
        unfold BLOCK_SIZE at h ⊢
        push_cast
        omega
  next hC =>
    exfalso
    apply hC
    rw [hb]
    unfold BLOCK_SIZE at hle ⊢
    omega

theorem readBlk_len_zero (sz : Nat) (blocks : List (Option Buffer)) (i : Nat)
    (hb : ((getBlock blocks i).getD (Buffer.zeros BLOCK_SIZE)).len = BLOCK_SIZE)
    (h : sz ≤ i * BLOCK_SIZE ∨ sz = (i + 1) * BLOCK_SIZE) :
    (readBlk sz blocks i 0).len = 0 := by
  unfold readBlk
  rw [bsliceO_zero]
  exact trimBlk_len_zero sz i _ hb h

/-- Unfolding one iteration of the read loop when the loop condition holds. -/
theorem readLoop_succ (sz : Nat) (blocks : List (Option Buffer))
    (fuel i o offset start : Nat) (buffer : Buffer)
    (h : start < buffer.len ∧ offset < sz) :
    readLoop sz blocks (fuel + 1) i o offset start buffer =
      readLoop sz blocks fuel (i + 1) 0
        (offset + (readBlk sz blocks i o).len)
        (start + (readBlk sz blocks i o).len)
        (copyAt buffer start (readBlk sz blocks i o)) := by
  conv_lhs => unfold readLoop
  split
  next => rfl
  next hc => exact absurd h hc

/-- The read loop returns `none` at fuel 0 when the condition still holds. -/
theorem readLoop_zero (sz : Nat) (blocks : List (Option Buffer))
    (i o offset start : Nat) (buffer : Buffer)
    (h : start < buffer.len ∧ offset < sz) :
    readLoop sz blocks 0 i o offset start buffer = none := by
  conv_lhs => unfold readLoop
  split
  next => rfl
  next hc => exact absurd h hc

/-- In the sparse scenario every block view from index 2 on is empty, so the
loop no longer advances. -/
theorem sparse_readBlk_len (i : Nat) (hi : 2 ≤ i) :
    (readBlk 1048577 sparseFile.blocks i 0).len = 0 := by
  have hlen : sparseFile.blocks.length = 2 := by decide
  apply readBlk_len_zero
  · rw [getBlock_oob _ _ (by omega), Option.getD_none]
    rfl
  · left
    unfold BLOCK_SIZE
    omega

/-- Once the sparse-scenario read loop reaches block index 2 (with
`offset = start = 2`), no amount of fuel makes it terminate. -/
theorem sparse_read_stuck : ∀ (fuel i : Nat) (buf : Buffer), 2 ≤ i →
    2 < buf.len → readLoop 1048577 sparseFile.blocks fuel i 0 2 2 buf = none := by
  intro fuel
  induction fuel with
  | zero =>
    intro i buf hi hb
    exact readLoop_zero _ _ _ _ _ _ _ ⟨hb, by norm_num⟩
  | succ n ih =>
    intro i buf hi hb
    rw [readLoop_succ _ _ _ _ _ _ _ _ ⟨hb, by norm_num⟩,
      sparse_readBlk_len i hi, Nat.add_zero]
    exact ih (i + 1) _ (by omega) (by rw [copyAt_len]; exact hb)

/-- **C2.** The read path is broken: on the spec's own sparse zero-fill
scenario (`write(1_048_576, "x")` on an empty file, then a read of
1 048 577 bytes from offset 0) the read loop never terminates — after two
iterations that already copy the wrong bytes, every further block view is
clamped empty while `start < buffer.length` still holds, so no fuel makes
`read` return.  The write itself succeeds (returns 1, sets size 1 048 577) —
the claimed result of 1 048 576 zero bytes followed by `'x'` is never
produced. -/
theorem sparse_zero_fill_read_never_returns :
    (Inode.write fileEmpty 1048576 (Buffer.ofList [120])).map Prod.snd =
      some 1 ∧
    sparseFile.size = 1048577 ∧
    ∀ fuel, Inode.readFuel fuel sparseFile 0 (Buffer.zeros 1048577) = none := by
  refine ⟨by decide, by decide, ?_⟩
  intro fuel
  show readLoop 1048577 sparseFile.blocks fuel 0 0 0 0 (Buffer.zeros 1048577) =
    none
  match fuel with
  | 0 => exact readLoop_zero _ _ _ _ _ _ _ ⟨by decide, by decide⟩
  | n + 1 =>
    rw [readLoop_succ 1048577 sparseFile.blocks n 0 0 0 0
      (Buffer.zeros 1048577) ⟨by decide, by decide⟩,
      show (readBlk 1048577 sparseFile.blocks 0 0).len = 1 from by decide]
    match n with
    | 0 => exact readLoop_zero _ _ _ _ _ _ _ ⟨by decide, by decide⟩
    | m + 1 =>
      rw [readLoop_succ 1048577 sparseFile.blocks m 1 0 (0 + 1) (0 + 1)
        (copyAt (Buffer.zeros 1048577) 0 (readBlk 1048577 sparseFile.blocks 0 0))
        ⟨by decide, by decide⟩,
        show (readBlk 1048577 sparseFile.blocks 1 0).len = 1 from by decide]
      show readLoop 1048577 sparseFile.blocks m 2 0 2 2 _ = none
      exact sparse_read_stuck m 2 _ (by norm_num) (by decide)

/-- In the exact-block-size scenario every block view is clamped empty from
the very first iteration (`slice(0, size - 1 * BLOCK_SIZE) = slice(0, 0)`). -/
theorem fullBlock_readBlk_len (i : Nat) :
    (readBlk 1048576 fullBlockFile.blocks i 0).len = 0 := by
  match i with
  | 0 =>
    apply readBlk_len_zero
    · decide
    · right
      decide
  | j + 1 =>
    have hlen : fullBlockFile.blocks.length = 1 := by decide
    apply readBlk_len_zero
    · rw [getBlock_oob _ _ (by omega), Option.getD_none]
      rfl
    · left
      unfold BLOCK_SIZE
      omega

/-- The read loop on a file of size exactly `BLOCK_SIZE` never advances,
from any block index. -/
theorem fullBlock_read_stuck : ∀ (fuel i : Nat) (buf : Buffer), 0 < buf.len →
    readLoop 1048576 fullBlockFile.blocks fuel i 0 0 0 buf = none := by
  intro fuel
  induction fuel with
  | zero =>
    intro i buf hb
    exact readLoop_zero _ _ _ _ _ _ _ ⟨hb, by norm_num⟩
  | succ n ih =>
    intro i buf hb
    rw [readLoop_succ _ _ _ _ _ _ _ _ ⟨hb, by norm_num⟩,
      fullBlock_readBlk_len i, Nat.add_zero]
    exact ih (i + 1) _ (by rw [copyAt_len]; exact hb)

/-- **C3.** `File#read` does not always terminate: on a file whose size is
exactly `BLOCK_SIZE` (written by one full-block write), a read from offset 0
with a buffer covering more than one block loops forever — the trimmed block
view is empty on every iteration, so `start` and `offset` never advance. -/
theorem read_loops_forever_on_block_multiple :
    (Inode.write fileEmpty 0 (Buffer.zeros 1048576)).map Prod.snd =
      some 1048576 ∧
    fullBlockFile.size = 1048576 ∧
    ∀ fuel, Inode.readFuel fuel fullBlockFile 0 (Buffer.zeros 2097152) = none := by
  refine ⟨by decide, by decide, ?_⟩
  intro fuel
  show readLoop 1048576 fullBlockFile.blocks fuel 0 0 0 0
    (Buffer.zeros 2097152) = none
  exact fullBlock_read_stuck fuel 0 _ (by decide)

/-- **C4.** Round-trip I/O fails: on a reachable two-block file of `'z'`
bytes (`zFile`), `write(1, "ab")` stores the bytes correctly (and returns 2),
but `read(1, 2)` returns `"az"` — the `i++` slip in the read loop trims block
0 to the wrong length and fetches the second byte from block 1 instead of
block 0. -/
theorem write_then_read_returns_wrong_bytes :
    (Inode.write fileEmpty 0 zFill).map Prod.snd = some 1048578 ∧
    (Inode.write zFile 1 abBuf).map Prod.snd = some 2 ∧
    ((c4File.blocks.getD 0 none).getD (Buffer.zeros 0)).data 2 = 98 ∧
    (Inode.readFuel 9 c4File 1 (Buffer.zeros 2)).map
      (fun r => (r.1.data 0, r.1.data 1, r.2)) = some (97, 122, 2) ∧
    ((97 : Nat), (122 : Nat), (2 : Nat)) ≠ (97, 98, 2) := by
  decide

/-! Helper lemmas for the FD-table claims. -/

theorem getD_append_lt {α : Type} (l l2 : List α) (k : Nat) (d : α)
    (h : k < l.length) : (l ++ l2).getD k d = l.getD k d := by
  simp [List.getD_eq_getElem?_getD, List.getElem?_append_left h]

theorem getD_append_len {α : Type} (l : List α) (x d : α) :
    (l ++ [x]).getD l.length d = x := by
  simp [List.getD_eq_getElem?_getD,
    List.getElem?_append_right (le_refl l.length)]

theorem trimTrailing_all_none (l : List (Option FDesc))
    (h : ∀ x ∈ l, x = none) : trimTrailing l = [] := by
  induction l with
  | nil => rfl
  | cons x xs ih =>
    have hx : x = none := h x (by simp)
    have ht : trimTrailing xs = [] := ih fun y hy => h y (by simp [hy])
    show trimCons x (trimTrailing xs) = []
    rw [ht, hx]
    rfl

theorem trimTrailing_getD (l : List (Option FDesc)) (k : Nat) (d : FDesc)
    (h : l.getD k none = some d) :
    (trimTrailing l).getD k none = some d := by
  induction l generalizing k with
  | nil => cases h
  | cons x xs ih =>
    show (trimCons x (trimTrailing xs)).getD k none = some d
    match k with
    | 0 =>
      have hx : x = some d := h
      cases htx : trimTrailing xs with
      | nil =>
        rw [hx]
        rfl
      | cons y ys =>
        rw [hx]
        rfl
    | k + 1 =>
      have h3 := ih k h
      cases htx : trimTrailing xs with
      | nil =>
        rw [htx] at h3
        cases h3
      | cons y ys =>
        rw [htx] at h3
        exact h3

theorem updInode_fds (fs : FS) (id : Nat) (f : Inode → Inode) :
    (updInode fs id f).fds = fs.fds := rfl

theorem dirPush_fds (fs : FS) (pid : Nat) (e : Entry) :
    (dirPush fs pid e).fds = fs.fds := rfl

theorem dirRemove_fds (fs : FS) (pid : Nat) (e : Entry) :
    (dirRemove fs pid e).fds = fs.fds := by
  unfold dirRemove
  split <;> rfl

theorem newDirUnder_fds (fs : FS) (p : Entry) (nm : String) :
    (newDirUnder fs p nm).fds = fs.fds := rfl

theorem renameCommit_fds (fs : FS) (a b : Nat) (fe : Entry) (tn : String) :
    (renameCommit fs a b fe tn).fds = fs.fds := by
  unfold renameCommit
  rw [dirPush_fds, dirRemove_fds]

theorem mkdir_fds (fs : FS) (p : String) : (fs.mkdir p).2.fds = fs.fds := by
  unfold FS.mkdir
  split
  · rfl
  · split
    · split
      · rfl
      · exact newDirUnder_fds _ _ _
    · rfl

theorem unlink_fds (fs : FS) (p : String) : (fs.unlink p).2.fds = fs.fds := by
  unfold FS.unlink
  split
  · rfl
  · split
    · split
      · rfl
      · split
        · rfl
        · exact dirRemove_fds _ _ _
    · rfl

theorem rmdir_fds (fs : FS) (p : String) : (fs.rmdir p).2.fds = fs.fds := by
  unfold FS.rmdir
  split
  · rfl
  · split
    · split
      · rfl
      · split
        · rfl
        · split
          · rfl
          · exact dirRemove_fds _ _ _
    · rfl

theorem link_fds (fs : FS) (s d : String) : (fs.link s d).2.fds = fs.fds := by
  unfold FS.link
  split
  · rfl
  · split
    · rfl
    · split
      · rfl
      · split
        · rfl
        · split
          · rfl
          · rw [dirPush_fds, updInode_fds]

theorem rename_fds (fs : FS) (s d : String) :
    (fs.rename s d).2.fds = fs.fds := by
  unfold FS.rename
  split
  · rfl
  · split
    · rfl
    · split
      · rfl
      · split
        · split
          · rfl
          · split
            · rfl
            · split
              · rfl
              · rw [renameCommit_fds, dirRemove_fds]
        · exact renameCommit_fds _ _ _ _ _

theorem chown_fds (fs : FS) (p : String) (u g : Nat) :
    (fs.chown p u g).2.fds = fs.fds := by
  unfold FS.chown
  split <;> rfl

theorem utimes_fds (fs : FS) (p : String) : (fs.utimes p).2.fds = fs.fds := by
  unfold FS.utimes
  split <;> rfl

theorem openFinish_fds (d : FDesc) (fs1 : FS) (iid : Nat) :
    (openFinish d fs1 iid).2.fds = fs1.fds ++
      [some { d with
                fileInodeId := some iid
                position := if d.appending then (inodeOf fs1 iid).size
                  else 0 }] := rfl

theorem openFile_fds_extends (fs : FS) (p : String) (fl : Nat) :
    (fs.openFile p fl).2.fds = fs.fds ∨
    ∃ d1, (fs.openFile p fl).2.fds = fs.fds ++ [some d1] := by
  unfold FS.openFile
  split
  · left; rfl
  · split
    · split
      · left; rfl
      · split
        · left; rfl
        · right
          by_cases hw : ((FDesc.ofFlag fl (fs.fds.length + 20)).writable &&
              !(FDesc.ofFlag fl (fs.fds.length + 20)).appending) = true
          · rw [if_pos hw, openFinish_fds, resetInode_fds]
            exact ⟨_, rfl⟩
          · rw [if_neg hw, openFinish_fds]
            exact ⟨_, rfl⟩
    · split
      · left; rfl
      · split
        · left; rfl
        · right
          rw [openFinish_fds, dirCreate_fds]
          exact ⟨_, rfl⟩
theorem slot_after_open (fs : FS) (p : String) (fl fd : Nat) (d : FDesc)
    (h : slotOf fs.fds fd = some d) :
    slotOf (fs.openFile p fl).2.fds fd = some d := by
  rcases openFile_fds_extends fs p fl with he | ⟨d1, he⟩
  · rw [he]; exact h
  · rw [he]
    unfold slotOf at h ⊢
    by_cases hlt : fd < 20
    · rw [if_pos hlt] at h; cases h
    · rw [if_neg hlt] at h ⊢
      have hk : fd - 20 < fs.fds.length := by
        by_contra hk
        rw [getD_oob _ _ _ (le_of_not_lt hk)] at h
        cases h
      rw [getD_append_lt _ _ _ _ hk]
      exact h

theorem slot_after_close (fs : FS) (fd fd2 : Nat) (d : FDesc)
    (h : slotOf fs.fds fd = some d) (hne : fd2 ≠ fd) :
    slotOf (fs.close fd2).2.fds fd = some d := by
  unfold FS.close
  cases hs : slotOf fs.fds fd2 with
  | none => exact h
  | some d2 =>
    show slotOf (trimTrailing (fs.fds.set (fd2 - 20) none)) fd = some d
    have h20 : ¬ fd < 20 := by
      intro hlt
      unfold slotOf at h
      rw [if_pos hlt] at h
      cases h
    have h20b : ¬ fd2 < 20 := by
      intro hlt
      unfold slotOf at hs
      rw [if_pos hlt] at hs
      cases hs
    unfold slotOf at h ⊢
    rw [if_neg h20] at h ⊢
    apply trimTrailing_getD
    rw [getD_set_ne _ _ _ _ _ (by omega)]
    exact h

theorem slot_push (fds : List (Option FDesc)) (d1 : FDesc) :
    slotOf (fds ++ [some d1]) (fds.length + 20) = some d1 := by
  unfold slotOf
  rw [if_neg (by omega)]
  have hix : fds.length + 20 - 20 = fds.length := by omega
  rw [hix]
  exact getD_append_len _ _ _

/-- **C9.** FD-table discipline: (1) a successful `open` returns exactly
`fds.length + 20` (hence ≥ 20) and that id resolves to the freshly pushed
descriptor, whose `id` field is the returned id; (2) a non-`close` operation
— or a `close` of a different id — never disturbs an existing slot; (3)
`close` on a null or out-of-range slot raises EBADF and changes nothing;
(4) a successful `close` nulls the slot and trims every trailing null; (5)
hence closing the last open descriptor leaves the FD table empty. -/
theorem fd_table_discipline :
    (∀ (fs : FS) (p : String) (fl fd : Nat), (fs.openFile p fl).1 = .ok fd →
      fd = fs.fds.length + 20 ∧ 20 ≤ fd ∧
      ∃ d1, slotOf (fs.openFile p fl).2.fds fd = some d1 ∧ d1.id = fd) ∧
    (∀ (op : Op) (fs : FS) (fd : Nat) (d : FDesc),
      slotOf fs.fds fd = some d →
      (∀ fd2, op = Op.close fd2 → fd2 ≠ fd) →
      slotOf (op.apply fs).fds fd = some d) ∧
    (∀ (fs : FS) (fd : Nat), slotOf fs.fds fd = none →
      fs.close fd = (.error .EBADF, fs)) ∧
    (∀ (fs : FS) (fd : Nat) (d : FDesc), slotOf fs.fds fd = some d →
      (fs.close fd).1 = .ok () ∧
      (fs.close fd).2.fds = trimTrailing (fs.fds.set (fd - 20) none)) ∧
    (∀ (fs : FS) (fd : Nat) (d : FDesc), slotOf fs.fds fd = some d →
      (fs.fds.set (fd - 20) none).all Option.isNone = true →
      (fs.close fd).2.fds = []) := by
  refine ⟨?_, ?_, ?_, ?_, ?_⟩
  · intro fs p fl fd ho
    unfold FS.openFile at ho ⊢
    cases hp : fs.parentDir p with
    | error e =>
      simp only [hp] at ho
      cases ho
    | ok pr =>
      obtain ⟨parent, nm⟩ := pr
      simp only [hp] at ho ⊢
      cases hg : dirGet fs parent.inodeId nm with
      | some file =>
        simp only [hg] at ho ⊢
        by_cases h1 : entryIsFile fs file
        · by_cases h2 : (FDesc.ofFlag fl (fs.fds.length + 20)).exclusive = true
          · rw [if_neg (not_not_intro h1), if_pos h2] at ho
            cases ho
          · rw [if_neg (not_not_intro h1), if_neg h2] at ho ⊢
            have hfd : (FDesc.ofFlag fl (fs.fds.length + 20)).id = fd :=
              Except.ok.inj ho
            have hfd2 : fs.fds.length + 20 = fd := hfd
            subst hfd2
            refine ⟨rfl, by omega, ?_⟩
            by_cases hw : ((FDesc.ofFlag fl (fs.fds.length + 20)).writable &&
                !(FDesc.ofFlag fl (fs.fds.length + 20)).appending) = true
            · rw [if_pos hw, openFinish_fds, resetInode_fds]
              exact ⟨_, slot_push _ _, rfl⟩
            · rw [if_neg hw, openFinish_fds]
              exact ⟨_, slot_push _ _, rfl⟩
        · rw [if_pos h1] at ho
          cases ho
      | none =>
        simp only [hg] at ho ⊢
        by_cases h3 : ((FDesc.ofFlag fl (fs.fds.length + 20)).readable &&
            !(FDesc.ofFlag fl (fs.fds.length + 20)).writable) = true
        · rw [if_pos h3] at ho
          cases ho
        · rw [if_neg h3] at ho ⊢
          by_cases h4 : (!(FDesc.ofFlag fl (fs.fds.length + 20)).creating) = true
          · rw [if_pos h4] at ho
            cases ho
          · rw [if_neg h4] at ho ⊢
            have hfd : (FDesc.ofFlag fl (fs.fds.length + 20)).id = fd :=
              Except.ok.inj ho
            have hfd2 : fs.fds.length + 20 = fd := hfd
            subst hfd2
            refine ⟨rfl, by omega, ?_⟩
            rw [openFinish_fds, dirCreate_fds]
            exact ⟨_, slot_push _ _, rfl⟩
  · intro op fs fd d h hne
    cases op with
    | mkdir p => show slotOf (fs.mkdir p).2.fds fd = some d
                 rw [mkdir_fds]; exact h
    | openFile p fl => exact slot_after_open fs p fl fd d h
    | close fd2 => exact slot_after_close fs fd fd2 d h (hne fd2 rfl)
    | link s t => show slotOf (fs.link s t).2.fds fd = some d
                  rw [link_fds]; exact h
    | rename s t => show slotOf (fs.rename s t).2.fds fd = some d
                    rw [rename_fds]; exact h
    | unlink p => show slotOf (fs.unlink p).2.fds fd = some d
                  rw [unlink_fds]; exact h
    | rmdir p => show slotOf (fs.rmdir p).2.fds fd = some d
                 rw [rmdir_fds]; exact h
    | chown p u g => show slotOf (fs.chown p u g).2.fds fd = some d
                     rw [chown_fds]; exact h
    | utimes p => show slotOf (fs.utimes p).2.fds fd = some d
                  rw [utimes_fds]; exact h
  · intro fs fd h
    unfold FS.close
    rw [h]
  · intro fs fd d h
    unfold FS.close
    rw [h]
    exact ⟨rfl, rfl⟩
  · intro fs fd d h hall
    unfold FS.close
    rw [h]
    show trimTrailing (fs.fds.set (fd - 20) none) = []
    apply trimTrailing_all_none
    intro x hx
    have hh := List.all_eq_true.mp hall x hx
    cases x with
    | none => rfl
    | some z => cases hh

/-- Witness for `fd_table_discipline`: a second `open` on `fsA` returns
id 21 = 1 + 20 and resolves to its descriptor; `mkdir` leaves slot 20
untouched; closing 20 — the only open descriptor of `fsA` — empties the
table. -/
theorem fd_table_discipline_witness :
    ((fsA.openFile "/a" 1).1 = .ok 21) ∧
    (∃ d1, slotOf (fsA.openFile "/a" 1).2.fds 21 = some d1 ∧ d1.id = 21) ∧
    slotOf (Op.apply (.mkdir "/x") fsA).fds 20 = some descA ∧
    (fsA.close 20).2.fds = [] := by
  refine ⟨by decide, ?_, ?_, ?_⟩
  · exact (fd_table_discipline.1 fsA "/a" 1 21 (by decide)).2.2
  · exact fd_table_discipline.2.1 (.mkdir "/x") fsA 20 descA (by decide)
      (fun fd2 hh => Op.noConfusion hh)
  · exact fd_table_discipline.2.2.2.2 fsA 20 descA (by decide) (by decide)

/-! Helper lemmas for the name-uniqueness invariant (C8). -/

theorem names_erase_nodup (l : List Entry) (a : Entry)
    (h : (l.map Entry.name).Nodup) : ((l.erase a).map Entry.name).Nodup :=
  List.Nodup.sublist (List.Sublist.map Entry.name (List.erase_sublist a l)) h

theorem find_name_mem (l : List Entry) (nm : String) (te : Entry)
    (hf : l.find? (fun e => e.name = nm) = some te) :
    te ∈ l ∧ te.name = nm := by
  refine ⟨List.mem_of_find?_eq_some hf, ?_⟩
  have h1 := List.find?_some hf
  exact of_decide_eq_true h1

theorem no_name_of_find_none (l : List Entry) (nm : String)
    (hf : l.find? (fun e => e.name = nm) = none) :
    nm ∉ l.map Entry.name := by
  intro hmem
  obtain ⟨x, hx, hxn⟩ := List.mem_map.mp hmem
  exact List.find?_eq_none.mp hf x hx (decide_eq_true hxn)

theorem no_name_after_erase (l : List Entry) (nm : String) (te : Entry)
    (hnd : (l.map Entry.name).Nodup)
    (hf : l.find? (fun e => e.name = nm) = some te) :
    nm ∉ (l.erase te).map Entry.name := by
  obtain ⟨hmem, hname⟩ := find_name_mem l nm te hf
  intro hin
  obtain ⟨x, hx, hxn⟩ := List.mem_map.mp hin
  have hxl : x ∈ l := (List.erase_sublist te l).subset hx
  have hxe : x = te :=
    List.inj_on_of_nodup_map hnd hxl hmem (by rw [hxn, hname])
  subst hxe
  have hlnd : l.Nodup := List.Nodup.of_map _ hnd
  exact ((List.Nodup.mem_erase_iff hlnd).mp hx).1 rfl

theorem names_push (l : List Entry) (e : Entry)
    (hnd : (l.map Entry.name).Nodup) (habs : e.name ∉ l.map Entry.name) :
    ((l ++ [e]).map Entry.name).Nodup := by
  rw [List.map_append, List.nodup_append]
  refine ⟨hnd, List.nodup_singleton _, ?_⟩
  intro a ha hb
  have : a = e.name := by
    simpa using hb
  subst this
  exact habs ha

theorem replaceFirst_names (l : List Entry) (a b : Entry)
    (h : b.name = a.name) :
    ((replaceFirst l a b).map Entry.name) = l.map Entry.name := by
  induction l with
  | nil => rfl
  | cons x xs ih =>
    show ((if x = a then b :: xs else x :: replaceFirst xs a b).map
      Entry.name) = _
    by_cases hx : x = a
    · rw [if_pos hx, List.map_cons, List.map_cons, h, hx]
    · rw [if_neg hx, List.map_cons, List.map_cons, ih]

theorem NamesUnique.getD {fs : FS} (h : NamesUnique fs) (id : Nat) :
    ((fs.store.getD id default).entries.map Entry.name).Nodup := by
  by_cases hlt : id < fs.store.length
  · have hmem : fs.store.getD id default ∈ fs.store := by
      rw [List.getD_eq_getElem?_getD, List.getElem?_eq_getElem hlt]
      exact List.getElem_mem _
    exact h _ hmem
  · rw [getD_oob _ _ _ (le_of_not_lt hlt)]
    exact List.nodup_nil

theorem NamesUnique.updInode {fs : FS} (h : NamesUnique fs) (id : Nat)
    (f : Inode → Inode)
    (hf : ((f (fs.store.getD id default)).entries.map Entry.name).Nodup) :
    NamesUnique (MemFs.updInode fs id f) := by
  intro i hi
  rcases List.mem_or_eq_of_mem_set hi with hmem | heq
  · exact h i hmem
  · rw [heq]
    exact hf

theorem NamesUnique.dirRemove {fs : FS} (h : NamesUnique fs) (pid : Nat)
    (e : Entry) : NamesUnique (MemFs.dirRemove fs pid e) := by
  unfold MemFs.dirRemove
  split
  · have h1 : NamesUnique (MemFs.updInode fs pid fun i =>
        { i with entries := i.entries.erase e }) :=
      h.updInode pid _ (names_erase_nodup _ _ (h.getD pid))
    exact h1.updInode e.inodeId _ (h1.getD e.inodeId)
  · exact h

theorem NamesUnique.dirPush {fs : FS} (h : NamesUnique fs) (pid : Nat)
    (e : Entry) (habs : e.name ∉ (inodeOf fs pid).entries.map Entry.name) :
    NamesUnique (MemFs.dirPush fs pid e) :=
  h.updInode pid _ (names_push _ _ (h.getD pid) habs)

theorem NamesUnique.resetInode {fs : FS} (h : NamesUnique fs) (id : Nat) :
    NamesUnique (MemFs.resetInode fs id) :=
  h.updInode id _ List.nodup_nil

theorem NamesUnique.newDirUnder {fs : FS} (h : NamesUnique fs) (p : Entry)
    (nm : String)
    (habs : nm ∉ (inodeOf fs p.inodeId).entries.map Entry.name) :
    NamesUnique (newDirUnder fs p nm) := by
  intro i hi
  rcases List.mem_append.mp hi with hmem | hmem
  · exact (h.dirPush p.inodeId _ habs) i hmem
  · rw [List.mem_singleton.mp hmem]
    exact List.nodup_nil

theorem NamesUnique.newFileUnder {fs : FS} (h : NamesUnique fs) (p : Entry)
    (nm : String)
    (habs : nm ∉ (inodeOf fs p.inodeId).entries.map Entry.name) :
    NamesUnique (newFileUnder fs p nm).1 := by
  intro i hi
  rcases List.mem_append.mp hi with hmem | hmem
  · exact (h.dirPush p.inodeId _ habs) i hmem
  · rw [List.mem_singleton.mp hmem]
    exact List.nodup_nil

theorem NamesUnique.dirCreate {fs : FS} (h : NamesUnique fs) (p : Entry)
    (nm : String) : NamesUnique (MemFs.dirCreate fs p nm).1 := by
  unfold MemFs.dirCreate
  split
  next e hg => exact h.resetInode _
  next hg =>
    unfold dirGet at hg
    exact h.newFileUnder _ _ (no_name_of_find_none _ _ hg)

theorem inodeOf_updInode_entries_sublist (fs : FS) (id : Nat)
    (f : Inode → Inode) (hf : ∀ i : Inode, (f i).entries.Sublist i.entries)
    (p : Nat) :
    ((inodeOf (updInode fs id f) p).entries).Sublist
      (inodeOf fs p).entries := by
  by_cases hp : p = id
  · subst hp
    by_cases hlt : p < fs.store.length
    · rw [inodeOf_updInode_self _ _ _ hlt]
      exact hf _
    · rw [updInode_oob _ _ _ (le_of_not_lt hlt)]
  · rw [inodeOf_updInode_ne _ _ _ _ hp]

theorem dirRemove_entries_sublist (fs : FS) (q : Nat) (e : Entry) (p : Nat) :
    ((inodeOf (dirRemove fs q e) p).entries).Sublist
      (inodeOf fs p).entries := by
  unfold dirRemove
  split
  · exact List.Sublist.trans
      (inodeOf_updInode_entries_sublist
        (updInode fs q fun i => { i with entries := i.entries.erase e })
        e.inodeId (fun i => { i with nlink := i.nlink - 1 })
        (fun i => List.Sublist.refl _) p)
      (inodeOf_updInode_entries_sublist fs q
        (fun i => { i with entries := i.entries.erase e })
        (fun i => List.erase_sublist e i.entries) p)
  · exact List.Sublist.refl _

theorem names_dirRemove_subset (fs : FS) (q : Nat) (e : Entry) (p : Nat)
    {nm : String}
    (h : nm ∈ (inodeOf (dirRemove fs q e) p).entries.map Entry.name) :
    nm ∈ (inodeOf fs p).entries.map Entry.name :=
  (List.Sublist.map Entry.name (dirRemove_entries_sublist fs q e p)).subset h

theorem namesMap_updInode_preserved (fs : FS) (id : Nat) (f : Inode → Inode)
    (hf : ∀ i : Inode,
      (f i).entries.map Entry.name = i.entries.map Entry.name) (p : Nat) :
    (inodeOf (updInode fs id f) p).entries.map Entry.name
      = (inodeOf fs p).entries.map Entry.name := by
  by_cases hp : p = id
  · subst hp
    by_cases hlt : p < fs.store.length
    · rw [inodeOf_updInode_self _ _ _ hlt, hf]
    · rw [updInode_oob _ _ _ (le_of_not_lt hlt)]
  · rw [inodeOf_updInode_ne _ _ _ _ hp]

theorem mem_namesMap_updInode {fs : FS} {id : Nat} {f : Inode → Inode}
    {p : Nat} {nm : String}
    (h : nm ∈ (inodeOf (updInode fs id f) p).entries.map Entry.name)
    (hf : ∀ i : Inode,
      (f i).entries.map Entry.name = i.entries.map Entry.name) :
    nm ∈ (inodeOf fs p).entries.map Entry.name := by
  rw [namesMap_updInode_preserved fs id f hf p] at h
  exact h

/-- Removing the entry that `get(name)` found eliminates that name from the
directory (uses name uniqueness of the pre-state). -/
theorem dirRemove_kills_name {fs : FS} (h : NamesUnique fs) (tpid : Nat)
    (te : Entry) (tn : String) (hf : dirGet fs tpid tn = some te) :
    tn ∉ (inodeOf (dirRemove fs tpid te) tpid).entries.map Entry.name := by
  unfold dirGet at hf
  have hmem : te ∈ (inodeOf fs tpid).entries := List.mem_of_find?_eq_some hf
  have hlt : tpid < fs.store.length := by
    by_contra hcon
    rw [inodeOf_oob _ _ (le_of_not_lt hcon)] at hmem
    exact absurd hmem (List.not_mem_nil _)
  unfold dirRemove
  rw [if_pos hmem]
  intro hin
  have hin2 := mem_namesMap_updInode hin (fun i => rfl)
  rw [inodeOf_updInode_self _ _ _ hlt] at hin2
  exact no_name_after_erase _ _ _ (h.getD tpid) hf hin2

theorem namesUnique_renameCommit {fs : FS} (h : NamesUnique fs)
    (fpid tpid : Nat) (fe : Entry) (tn : String)
    (habs : tn ∉ (inodeOf fs tpid).entries.map Entry.name) :
    NamesUnique (renameCommit fs fpid tpid fe tn) := by
  unfold renameCommit
  apply NamesUnique.dirPush (h.dirRemove fpid fe)
  intro hin
  exact habs (names_dirRemove_subset _ _ _ _ hin)

theorem namesUnique_mkdir {fs : FS} (h : NamesUnique fs) (p : String) :
    NamesUnique (fs.mkdir p).2 := by
  unfold FS.mkdir
  split
  · exact h
  · split
    · split
      · exact h
      next hg =>
        unfold dirGet at hg
        exact h.newDirUnder _ _ (no_name_of_find_none _ _ hg)
    · exact h

theorem namesUnique_unlink {fs : FS} (h : NamesUnique fs) (p : String) :
    NamesUnique (fs.unlink p).2 := by
  unfold FS.unlink
  split
  · exact h
  · split
    · split
      · exact h
      · split
        · exact h
        · exact h.dirRemove _ _
    · exact h

theorem namesUnique_rmdir {fs : FS} (h : NamesUnique fs) (p : String) :
    NamesUnique (fs.rmdir p).2 := by
  unfold FS.rmdir
  split
  · exact h
  · split
    · split
      · exact h
      · split
        · exact h
        · split
          · exact h
          · exact h.dirRemove _ _
    · exact h

theorem namesUnique_link {fs : FS} (h : NamesUnique fs) (s d : String) :
    NamesUnique (fs.link s d).2 := by
  unfold FS.link
  split
  · exact h
  · rename_i fp fn hfp
    split
    · exact h
    · rename_i tp tn htp
      split
      · exact h
      · rename_i fe hfe
        split
        · exact h
        · split
          · exact h
          · rename_i hte
            have h1 : NamesUnique (updInode fs fp.inodeId fun i => { i with entries := replaceFirst i.entries fe { fe with nlinkProp := fe.nlinkProp.preInc } }) := by
              apply NamesUnique.updInode h
              show ((replaceFirst (fs.store.getD fp.inodeId default).entries fe { fe with nlinkProp := fe.nlinkProp.preInc }).map Entry.name).Nodup
              rw [replaceFirst_names (fs.store.getD fp.inodeId default).entries fe { fe with nlinkProp := fe.nlinkProp.preInc } rfl]
              exact h.getD _
            apply NamesUnique.dirPush h1
            intro hin
            have hin2 := mem_namesMap_updInode hin (fun i => replaceFirst_names i.entries fe { fe with nlinkProp := fe.nlinkProp.preInc } rfl)
            unfold dirGet at hte
            exact no_name_of_find_none _ _ hte hin2

theorem namesUnique_rename {fs : FS} (h : NamesUnique fs) (s d : String) :
    NamesUnique (fs.rename s d).2 := by
  unfold FS.rename
  split
  · exact h
  · split
    · exact h
    · split
      · exact h
      · split
        next te hte =>
          split
          · exact h
          · split
            · exact h
            · split
              · exact h
              · exact namesUnique_renameCommit (h.dirRemove _ _) _ _ _ _
                  (dirRemove_kills_name h _ _ _ hte)
        next hte =>
          unfold dirGet at hte
          exact namesUnique_renameCommit h _ _ _ _
            (no_name_of_find_none _ _ hte)

theorem namesUnique_openFile {fs : FS} (h : NamesUnique fs) (p : String)
    (fl : Nat) : NamesUnique (fs.openFile p fl).2 := by
  unfold FS.openFile
  split
  · exact h
  · split
    · split
      · exact h
      · split
        · exact h
        · split
          · exact h.resetInode _
          · exact h
    · split
      · exact h
      · split
        · exact h
        · exact h.dirCreate _ _

theorem namesUnique_close {fs : FS} (h : NamesUnique fs) (fd : Nat) :
    NamesUnique (fs.close fd).2 := by
  unfold FS.close
  split
  · exact h
  · exact h

theorem namesUnique_chown {fs : FS} (h : NamesUnique fs) (p : String)
    (u g : Nat) : NamesUnique (fs.chown p u g).2 := by
  unfold FS.chown
  split
  · exact h
  · exact h

theorem namesUnique_utimes {fs : FS} (h : NamesUnique fs) (p : String) :
    NamesUnique (fs.utimes p).2 := by
  unfold FS.utimes
  split
  · exact h
  · exact h

theorem namesUnique_step (op : Op) (fs : FS) (h : NamesUnique fs) :
    NamesUnique (op.apply fs) := by
  cases op with
  | mkdir p => exact namesUnique_mkdir h p
  | openFile p fl => exact namesUnique_openFile h p fl
  | close fd => exact namesUnique_close h fd
  | link s d => exact namesUnique_link h s d
  | rename s d => exact namesUnique_rename h s d
  | unlink p => exact namesUnique_unlink h p
  | rmdir p => exact namesUnique_rmdir h p
  | chown p u g => exact namesUnique_chown h p u g
  | utimes p => exact namesUnique_utimes h p

/-- **C8.** Name uniqueness: in every state reachable by any sequence of
operations (`mkdir`, `open`/create, `rename` — including rename onto an
existing target and rename onto itself —, `link`, `unlink`, `rmdir`, and the
remaining operations), no directory's entry list contains two entries with
the same name. -/
theorem reachable_names_unique (fs : FS) (h : Reachable fs) :
    NamesUnique fs := by
  induction h with
  | init => decide
  | step op hr ih => exact namesUnique_step op _ ih

/-- Witness for `reachable_names_unique` on a concrete two-operation
history. -/
theorem reachable_names_unique_witness :
    NamesUnique (Op.apply (.mkdir "/a/b") (Op.apply (.mkdir "/a") FS.new)) :=
  reachable_names_unique _
    (Reachable.step (.mkdir "/a/b")
      (Reachable.step (.mkdir "/a") Reachable.init))

end MemFs
